import Mathlib

/-
A shallow embedding of the repository emission engine of svn2git
(src/repository.cpp): the FastImportRepository data model, its transaction
protocol emission, the marks-file reader, and the incremental-resume engine.
Byte arrays are modelled as Lean Strings, QVector as List, the QHash branch
registry as an insertion-ordered association list, and the bytes written to
the importer child process as an accumulating String field.  Fatal
assertions and out-of-bounds container accesses are surfaced as Option.none.
-/

set_option maxRecDepth 100000

namespace Svn2Git

/-- List-level String prefix test (String.startsWith). -/
def strStartsWith (s p : String) : Bool := p.data.isPrefixOf s.data

/-- List-level String suffix test (String.endsWith). -/
def strEndsWith (s p : String) : Bool := p.data.isSuffixOf s.data

/-- List-level String.drop (QByteArray::mid(n)). -/
def strDrop (s : String) (n : Nat) : String := String.mk (s.data.drop n)

/-- List-level String.dropRight (QString::chop). -/
def strDropRight (s : String) (n : Nat) : String := String.mk (s.data.take (s.data.length - n))

/-- Decimal rendering of a machine integer, as QByteArray::number(int) and
QTextStream operator<< produce it. -/
def renderInt (i : Int) : String := toString i

/-- QByteArray::number(mode, 8): the octal digits of a nonnegative int. -/
def renderOctal (n : Nat) : String := String.mk (Nat.toDigits 8 n)

/-- QByteArray::length on UTF-8 data: byte count of the string. -/
def byteLen (s : String) : Nat := (s.data.map Char.utf8Size).foldl (· + ·) 0

/-- Concatenation of a list of strings (String.join). -/
def strConcat : List String → String
  | [] => ""
  | a :: rest => a ++ strConcat rest

/-- maxMark = (1 << 20) - 1, the largest usable git-fast-import mark. -/
def maxMark : Int := 2 ^ 20 - 1

/-- EXIT_SUCCESS as returned by resetBranch. -/
def EXIT_SUCCESS : Int := 0

/-- EXIT_FAILURE as returned by createBranch on a missing source branch. -/
def EXIT_FAILURE : Int := 1

/-- Per-branch record: creation revnum and the parallel commits/marks vectors. -/
structure Branch where
  created : Int
  commits : List Int
  marks : List Int
deriving DecidableEq

/-- A value-initialized Branch, as QHash::operator[] inserts it. -/
def defaultBranch : Branch := ⟨0, [], []⟩

/-- The branch registry QHash<QString, Branch>, as an association list in
insertion order. -/
abbrev Registry := List (String × Branch)

/-- Lookup in the registry; a missing key reads as a value-initialized Branch. -/
def lookupBranch (reg : Registry) (k : String) : Branch :=
  match reg.find? (fun p => p.1 = k) with
  | some p => p.2
  | none => defaultBranch

/-- Whether the registry has an entry for the key (QHash::contains). -/
def containsBranch (reg : Registry) (k : String) : Bool :=
  reg.any (fun p => p.1 = k)

/-- QHash::operator[] side effect: insert a value-initialized entry when the
key is missing. -/
def touchBranch (reg : Registry) (k : String) : Registry :=
  if containsBranch reg k then reg else reg ++ [(k, defaultBranch)]

/-- Store a branch under a key (write-back through the operator[] reference). -/
def setBranch (reg : Registry) (k : String) (b : Branch) : Registry :=
  if containsBranch reg k then
    reg.map (fun p => if p.1 = k then (k, b) else p)
  else reg ++ [(k, b)]

/-- Annotated tag record accumulated until finalizeTags. -/
structure AnnotatedTag where
  supportingRef : String
  spfx : String
  author : String
  log : String
  dt : Nat
  revnum : Int
deriving DecidableEq

/-- One in-flight commit (FastImportRepository::Transaction).  The field
`spfx` is called svnprefix in the source. -/
structure Transaction where
  branch : String
  spfx : String
  author : String
  log : String
  datetime : Nat
  revnum : Int
  merges : List Int
  deletedFiles : List String
  modifiedFiles : String
deriving DecidableEq

/-- The command-line options read by the engine: dry-run, add-metadata and
commit-interval (default 10000). -/
structure Config where
  dryRun : Bool
  addMetadata : Bool
  commitInterval : Int
deriving DecidableEq

/-- The mutable state of one FastImportRepository, with the bytes written to
the importer child collected in `output`. -/
structure RepoState where
  branches : Registry
  commitCount : Int
  outstandingTransactions : Int
  last_commit_mark : Int
  next_file_mark : Int
  annotatedTags : List (String × AnnotatedTag)
  processHasStarted : Bool
  output : String
deriving DecidableEq

/-- FastImportRepository constructor: insert every rule branch uncreated,
then force the default branch "master" to created = 1. -/
def initRepo (ruleBranches : List String) : RepoState :=
  let reg : Registry := ruleBranches.map (fun n => (n, defaultBranch))
  let reg := touchBranch reg ("master")
  let b := lookupBranch reg ("master")
  let reg := setBranch reg ("master") { b with created := 1 }
  ⟨reg, 0, 0, 0, maxMark, [], false, ""⟩

/-- Branch name to git ref: prepend refs/heads/ unless already a full ref. -/
def refName (branch : String) : String :=
  if strStartsWith branch ("refs/") then branch else "refs/heads/" ++ branch

/-- QVector::last with a default; every use in the model is guarded so the
default is never observable. -/
def lastMark (marks : List Int) : Int := marks.getLast?.getD 0

/-- The reset emitted for one branch by reloadBranches: nothing when the
branch has no marks or its last mark is zero. -/
def reloadBranchOut (name : String) (br : Branch) : String :=
  if br.marks = [] ∨ lastMark br.marks = 0 then ""
  else
    "reset " ++ refName name ++ "\nfrom :" ++ renderInt (lastMark br.marks) ++
    "\n\n" ++ "progress Branch " ++ refName name ++ " reloaded\n"

/-- FastImportRepository::reloadBranches, emitted once per process start. -/
def reloadBranchesOut (reg : Registry) : String :=
  strConcat (reg.map (fun p => reloadBranchOut p.1 p.2))

/-- FastImportRepository::startFastImport: on the first start, emit the
reloadBranches resets; otherwise a no-op. -/
def startFastImport (rs : RepoState) : RepoState :=
  if rs.processHasStarted then rs
  else { rs with processHasStarted := true,
                 output := rs.output ++ reloadBranchesOut rs.branches }

/-- One step of the qUpperBound binary search: while lo < hi, probe the
middle element and keep the half that can contain the first element
strictly greater than v. -/
def ubLoop (a : List Int) (v : Int) : Nat → Nat → Nat → Nat
  | 0, lo, _ => lo
  | fuel + 1, lo, hi =>
    if lo < hi then
      let mid := (lo + hi) / 2
      if a.getD mid 0 ≤ v then ubLoop a v fuel (mid + 1) hi
      else ubLoop a v fuel lo mid
    else lo

/-- qUpperBound over the whole vector: the position of the first element
strictly greater than v (the vector is sorted in ascending order). -/
def qUpperBound (a : List Int) (v : Int) : Nat := ubLoop a v (a.length + 1) 0 a.length

/-- FastImportRepository::markFrom.  Returns the resolved mark, the registry
after the QHash operator[] lookup, and the updated description string. -/
def markFrom (reg : Registry) (branchFrom : String) (branchRevNum : Int)
    (desc : String) : Int × Registry × String :=
  let reg := touchBranch reg branchFrom
  let brFrom := lookupBranch reg branchFrom
  if brFrom.created = 0 then (-1, reg, desc)
  else if brFrom.commits = [] then (-1, reg, desc)
  else if branchRevNum = brFrom.commits.getLast?.getD 0 then
    (lastMark brFrom.marks, reg, desc)
  else
    let ub := qUpperBound brFrom.commits branchRevNum
    if ub = 0 then (0, reg, desc)
    else
      let closestCommit := brFrom.commits.getD (ub - 1) 0
      let desc :=
        if desc = "" then desc
        else
          let d := desc ++ " at r" ++ renderInt branchRevNum
          if closestCommit ≠ branchRevNum then d ++ " => r" ++ renderInt closestCommit
          else d
      (brFrom.marks.getD (ub - 1) 0, reg, desc)

/-- FastImportRepository::resetBranch.  Returns none when the backup
condition dereferences marks.last() on an empty vector (the out-of-bounds
access), otherwise the status code and the new state. -/
def resetBranch (branch : String) (revnum mark : Int) (resetTo comment : String)
    (rs : RepoState) : Option (Int × RepoState) :=
  let branchRef := refName branch
  let reg := touchBranch rs.branches branch
  let br := lookupBranch reg branch
  let cond : Option Bool :=
    if br.created ≠ 0 ∧ br.created ≠ revnum then
      if br.marks = [] then none else some (lastMark br.marks ≠ 0)
    else some false
  cond.map (fun doBackup =>
    let backupOut :=
      if doBackup then
        "reset refs/backups/r" ++ renderInt revnum ++ strDrop branchRef 4 ++
        "\nfrom " ++ branchRef ++ "\n\n"
      else ""
    let br' : Branch := ⟨revnum, br.commits ++ [revnum], br.marks ++ [mark]⟩
    let reg := setBranch reg branch br'
    let out := backupOut ++ "reset " ++ branchRef ++ "\nfrom " ++ resetTo ++ "\n\n" ++
      "progress SVN r" ++ renderInt revnum ++ " branch " ++ branch ++ " = :" ++
      renderInt mark ++ " # " ++ comment ++ "\n\n"
    (EXIT_SUCCESS, { rs with branches := reg, output := rs.output ++ out }))

/-- FastImportRepository::createBranch. -/
def createBranch (branch : String) (revnum : Int) (branchFrom : String)
    (branchRevNum : Int) (rs : RepoState) : Option (Int × RepoState) :=
  let rs := startFastImport rs
  let desc := "from branch " ++ branchFrom
  let res := markFrom rs.branches branchFrom branchRevNum desc
  let mark := res.1
  let rs := { rs with branches := res.2.1 }
  let desc := res.2.2
  if mark = -1 then some (EXIT_FAILURE, rs)
  else
    let branchFromRef := if mark = 0 then refName branchFrom else ":" ++ renderInt mark
    let desc := if mark = 0 then desc ++ ", deleted/unknown" else desc
    resetBranch branch revnum mark branchFromRef desc rs

/-- The 40-zero null sha used as the reset target of a branch deletion. -/
def nullSha : String := String.mk (List.replicate 40 '0')

/-- FastImportRepository::deleteBranch. -/
def deleteBranch (branch : String) (revnum : Int) (rs : RepoState) :
    Option (Int × RepoState) :=
  let rs := startFastImport rs
  resetBranch branch revnum 0 nullSha ("delete") rs

/-- FastImportRepository::newTransaction: bump commitCount, emit a checkpoint
when it reaches a multiple of commit-interval, and hand out a fresh
transaction. -/
def newTransaction (cfg : Config) (branch spfxArg : String) (revnum : Int)
    (rs : RepoState) : Transaction × RepoState :=
  let rs := startFastImport rs
  let txn : Transaction := ⟨branch, spfxArg, "", "", 0, revnum, [], [], ""⟩
  let rs := { rs with commitCount := rs.commitCount + 1 }
  let rs :=
    if rs.commitCount % cfg.commitInterval = 0 then
      { rs with output := rs.output ++ "checkpoint\n" }
    else rs
  (txn, { rs with outstandingTransactions := rs.outstandingTransactions + 1 })

/-- FastImportRepository::forgetTransaction, run by the Transaction
destructor: when outstandingTransactions drops to zero, reset
next_file_mark to maxMark. -/
def forgetTransaction (rs : RepoState) : RepoState :=
  let rs := { rs with outstandingTransactions := rs.outstandingTransactions - 1 }
  if rs.outstandingTransactions = 0 then { rs with next_file_mark := maxMark } else rs

/-- Transaction::setAuthor. -/
def setAuthor (a : String) (t : Transaction) : Transaction := { t with author := a }

/-- Transaction::setDateTime. -/
def setDateTime (dt : Nat) (t : Transaction) : Transaction := { t with datetime := dt }

/-- Transaction::setLog. -/
def setLog (l : String) (t : Transaction) : Transaction := { t with log := l }

/-- Transaction::deleteFile: strip one trailing slash and record the path. -/
def deleteFile (path : String) (t : Transaction) : Transaction :=
  let p := if strEndsWith path ("/") then strDropRight path 1 else path
  { t with deletedFiles := t.deletedFiles ++ [p] }

/-- Transaction::noteCopyFromBranch: resolve the source mark; self-copies,
unknown branches and zero marks are warned about and dropped; otherwise the
mark joins `merges` unless already present. -/
def noteCopyFromBranch (branchFrom : String) (branchRevNum : Int)
    (txn : Transaction) (rs : RepoState) : Transaction × RepoState :=
  if txn.branch = branchFrom then (txn, rs)
  else
    let res := markFrom rs.branches branchFrom branchRevNum ("")
    let mark := res.1
    let rs := { rs with branches := res.2.1 }
    if mark = -1 then (txn, rs)
    else if mark = 0 then (txn, rs)
    else if mark ∈ txn.merges then (txn, rs)
    else ({ txn with merges := txn.merges ++ [mark] }, rs)

/-- Transaction::addFile: allocate a blob mark downward, record the M line,
and (unless dry-run) emit the blob header; the caller then writes the body
to the importer.  none models the fatal mark-collision assertion. -/
def addFile (cfg : Config) (path : String) (mode : Nat) (length : Int)
    (body : String) (txn : Transaction) (rs : RepoState) :
    Option (Transaction × RepoState) :=
  let mark := rs.next_file_mark
  let rs := { rs with next_file_mark := rs.next_file_mark - 1 }
  if mark > rs.last_commit_mark + 1 then
    let txn := { txn with modifiedFiles := (txn.modifiedFiles ++ "M " ++
      renderOctal mode ++ " :" ++ renderInt mark ++ " " ++ path ++ "\n") }
    let rs :=
      if cfg.dryRun then rs
      else { rs with output := (rs.output ++ "blob\nmark :" ++ renderInt mark ++
        "\ndata " ++ renderInt length ++ "\n") }
    some (txn, { rs with output := rs.output ++ body })
  else none

/-- The merge-line loop of Transaction::commit: i counts parents so far,
parent-matching marks are skipped, and the 17th parent triggers one warning
and a break.  Returns the wire bytes, the desc suffix, and the number of
warnings issued. -/
def mergeLoop (parentmark : Int) : List Int → Nat → String × String × Nat
  | [], _ => ("", "", 0)
  | m :: rest, i =>
    if m = parentmark then mergeLoop parentmark rest i
    else if i + 1 > 16 then ("", "", 1)
    else
      let ms := " :" ++ renderInt m
      let r := mergeLoop parentmark rest (i + 1)
      ("merge" ++ ms ++ "\n" ++ r.1, ms ++ r.2.1, r.2.2)

/-- Transaction::commit: allocate the commit mark upward (none models the
fatal collision assertion), update the branch vectors, and emit the commit
header, message, merge lines, deletions, modifications and the closing
progress line, in that order. -/
def commitTxn (cfg : Config) (txn : Transaction) (rs : RepoState) :
    Option RepoState :=
  let mark := rs.last_commit_mark + 1
  let rs := { rs with last_commit_mark := mark }
  if mark < rs.next_file_mark - 1 then
    let message :=
      (if strEndsWith txn.log ("\n") then txn.log else txn.log ++ "\n") ++
      (if cfg.addMetadata then
        "\nsvn path=" ++ txn.spfx ++ "; revision=" ++ renderInt txn.revnum ++ "\n"
       else "")
    let reg := touchBranch rs.branches txn.branch
    let br := lookupBranch reg txn.branch
    let parentmark := if br.created ≠ 0 ∧ br.marks ≠ [] then lastMark br.marks else 0
    let br := if br.created ≠ 0 ∧ br.marks ≠ [] then br else { br with created := txn.revnum }
    let br := { br with commits := br.commits ++ [txn.revnum], marks := br.marks ++ [mark] }
    let reg := setBranch reg txn.branch br
    let header := "commit " ++ refName txn.branch ++ "\nmark :" ++ renderInt mark ++
      "\ncommitter " ++ txn.author ++ " " ++ toString txn.datetime ++
      " -0000\ndata " ++ toString (byteLen message) ++ "\n"
    let mrg := mergeLoop parentmark txn.merges (if parentmark = 0 then 0 else 1)
    let delOut :=
      if "" ∈ txn.deletedFiles then "deleteall\n"
      else strConcat (txn.deletedFiles.map (fun df => "D " ++ df ++ "\n"))
    let progressOut := "\nprogress SVN r" ++ renderInt txn.revnum ++ " branch " ++
      txn.branch ++ " = :" ++ renderInt mark ++
      (if mrg.2.1 = "" then "" else " # merge from") ++ mrg.2.1 ++ "\n\n"
    let outAll := rs.output ++ header ++ message ++ "\n" ++ mrg.1 ++ delOut ++
      txn.modifiedFiles ++ progressOut
    some { rs with branches := reg, output := outAll }
  else none

/-! ### The marks-file reader (lastValidMark) -/

/-- The six ASCII characters QByteArray::trimmed treats as whitespace. -/
def isQSpace (c : Char) : Bool :=
  c = ' ' ∨ c = '\t' ∨ c = '\n' ∨ c = '\r' ∨ c = '\x0b' ∨ c = '\x0c'

/-- Value of a digit string (most significant first). -/
def digVal (l : List Char) : Nat :=
  l.foldl (fun acc c => acc * 10 + (c.toNat - Char.toNat '0')) 0

/-- Whether the list is a nonempty run of ASCII digits. -/
def allDigits (l : List Char) : Bool := !l.isEmpty && l.all Char.isDigit

/-- QString::toInt on the mark substring: an optional sign followed by
digits; anything else converts to 0. -/
def toIntQ (l : List Char) : Int :=
  match l with
  | '-' :: rest => if allDigits rest then -(digVal rest : Int) else 0
  | '+' :: rest => if allDigits rest then (digVal rest : Int) else 0
  | _ => if allDigits l then (digVal l : Int) else 0

/-- One marks-file line (raw readLine output, trailing newline included):
the integer between the leading colon and the first space, or 0 when the
shape or the number is invalid. -/
def parseMarkLine (l : List Char) : Int :=
  match l with
  | ':' :: rest =>
    if rest.any (fun c => c = ' ') then toIntQ (rest.takeWhile (fun c => c ≠ ' '))
    else 0
  | _ => 0

/-- The scanning loop of lastValidMark: prev is the highest contiguous mark
so far; corruption returns 0, the first gap stops the scan. -/
def lvmLoop : List String → Int → Int
  | [], prev => prev
  | line :: rest, prev =>
    if line = "" then lvmLoop rest prev
    else
      let mark := parseMarkLine line.data
      if mark = 0 then 0
      else if mark = prev then 0
      else if mark < prev then 0
      else if mark > prev + 1 then prev
      else lvmLoop rest mark

/-- lastValidMark: none models a marks file that cannot be opened (0,
silently); otherwise scan the readLine lines of the file. -/
def lastValidMark : Option (List String) → Int
  | none => 0
  | some lines => lvmLoop lines 0

/-! ### The incremental-resume engine (setupIncremental) -/

/-- Truncate a log line at the first '#', as setupIncremental does. -/
def stripComment (l : List Char) : List Char := l.takeWhile (fun c => c ≠ '#')

/-- QByteArray::trimmed. -/
def qtrim (l : List Char) : List Char :=
  ((l.dropWhile isQSpace).reverse.dropWhile isQSpace).reverse

/-- Strip a literal from the front of a character list. -/
def stripLit : List Char → List Char → Option (List Char)
  | [], s => some s
  | _, [] => none
  | p :: ps, c :: cs => if c = p then stripLit ps cs else none

/-- Whether splitting the remainder at position i yields a literal " = :"
followed by a nonempty digit run reaching the end of the line. -/
def tailSplitOK (r : List Char) (i : Nat) : Bool :=
  match stripLit (' ' :: '=' :: ' ' :: ':' :: []) (r.drop i) with
  | some d => allDigits d
  | none => false

/-- The greedy match of `(.*) = :(\d+)` at the end of the line: the branch
capture extends to the last position where the tail still matches. -/
def greedySplit (r : List Char) : Option (List Char × Nat) :=
  match ((List.range (r.length + 1)).filter (tailSplitOK r)).max? with
  | some i => some (r.take i, digVal ((r.drop i).drop 4))
  | none => none

/-- QRegExp::exactMatch against `progress SVN r(\d+) branch (.*) = :(\d+)`:
the revnum, branch name and mark captures, or none when the line does not
match. -/
def parseProgress (s : String) : Option (Int × String × Int) :=
  match stripLit (String.data ("progress SVN r")) s.data with
  | none => none
  | some rest =>
    let ds := rest.takeWhile Char.isDigit
    if ds = [] then none
    else
      match stripLit (String.data (" branch ")) (rest.dropWhile Char.isDigit) with
      | none => none
      | some r =>
        match greedySplit r with
        | none => none
        | some (b, mk) => some ((digVal ds : Int), (String.mk b, (mk : Int)))

/-- The comment-stripped, trimmed form of a raw log line. -/
def cleanLine (s : String) : String := String.mk (qtrim (stripComment s.data))

/-- The outcome of setupIncremental: the returned revnum, the by-reference
cutoff, the log content after any truncation, the content copied to the
.old backup, and the repository state the scan rebuilt. -/
structure IncResult where
  retval : Int
  cutoff : Int
  newLog : Option (List String)
  backup : Option (List String)
  last_commit_mark : Int
  branches : Registry
  warnedGap : Bool
deriving DecidableEq

/-- The branch-registry update for one replayed log entry. -/
def applyLogEntry (reg : Registry) (rev mk : Int) (brName : String) : Registry :=
  let reg := touchBranch reg brName
  let br := lookupBranch reg brName
  let br := if br.created = 0 ∨ mk = 0 ∨ br.marks = [] then { br with created := rev } else br
  let br := { br with commits := br.commits ++ [rev], marks := br.marks ++ [mk] }
  setBranch reg brName br

/-- The log-scanning loop of setupIncremental.  orig is the on-disk log
(used for the backup copy and the truncation position), rem the unread
lines, idx the line position of the next read. -/
def scanLoop (lvm : Int) (orig : List String) :
    List String → Nat → Int → Int → Int → Registry → IncResult
  | [], _, cutoff, lastRev, lcm, reg =>
    ⟨lastRev + 1, cutoff, some orig, none, lcm, reg, false⟩
  | line :: rest, idx, cutoff, lastRev, lcm, reg =>
    match parseProgress (cleanLine line) with
    | none => scanLoop lvm orig rest (idx + 1) cutoff lastRev lcm reg
    | some (rev, brName, mk) =>
      if rev ≥ cutoff then
        ⟨cutoff, cutoff, some (orig.take idx), some orig, lcm, reg, false⟩
      else if mk > lvm then
        ⟨rev, rev, some (orig.take idx), some orig, lcm, reg, true⟩
      else
        scanLoop lvm orig rest (idx + 1) cutoff rev (max lcm mk)
          (applyLogEntry reg rev mk brName)

/-- FastImportRepository::setupIncremental over the readLine lines of the
log and marks files (none = the file does not exist). -/
def setupIncremental (lcm0 : Int) (reg0 : Registry) (log marks : Option (List String))
    (cutoff : Int) : IncResult :=
  match log with
  | none => ⟨1, cutoff, none, none, lcm0, reg0, false⟩
  | some lines => scanLoop (lastValidMark marks) lines lines 0 cutoff 0 lcm0 reg0

/-- The merge marks commit() retains: parent-matching entries skipped,
insertion order preserved. -/
def keptMerges (pm : Int) (ms : List Int) : List Int :=
  ms.filter (fun m => decide (m ≠ pm))

/-- A log entry the setupIncremental scan replays without exiting: it either
fails the progress regex, or parses with a revnum below the cutoff and a
mark within the marks-file high-water. -/
def okEntry (cutoff lvm : Int) (s : String) : Prop :=
  parseProgress (cleanLine s) = none ∨
  ∃ r b m, parseProgress (cleanLine s) = some (r, b, m) ∧ r < cutoff ∧ m ≤ lvm

/-- The branch record markFrom reads after the QHash operator[] touch. -/
def brAt (reg : Registry) (k : String) : Branch := lookupBranch (touchBranch reg k) k

/-! ### Concrete scenarios from the specification -/

/-- The default configuration: no dry-run, no add-metadata, interval 10000. -/
def cfg0 : Config := ⟨false, false, 10000⟩

/-- Scenario S1: fresh repository with branch master; one transaction on
master at r3 with author, datetime 1000, log hello, one 5-byte file f in
mode 0100644, then commit. -/
def runS1 : Option RepoState :=
  let s0 := initRepo [("master")]
  let p1 := newTransaction cfg0 ("master") ("/p") 3 s0
  let t := setLog ("hello") (setDateTime 1000 (setAuthor ("A <a@x>") p1.1))
  (addFile cfg0 ("f") 0o100644 5 ("hello") t p1.2).bind
    (fun pr => commitTxn cfg0 pr.1 pr.2)

/-- The wire bytes scenario S1 writes to the importer. -/
def expectedS1 : String :=
  "blob\nmark :1048575\ndata 5\nhello" ++
  "commit refs/heads/master\nmark :1\ncommitter A <a@x> 1000 -0000\ndata 6\nhello\n\n" ++
  "M 100644 :1048575 f\n\nprogress SVN r3 branch master = :1\n\n"

/-- The repository state scenario S1 leaves behind (with the output reset,
so that the scenario S2 emission can be read off on its own). -/
def s1State : RepoState := ⟨[(("master"), ⟨3, [3], [1]⟩)], 1, 1, 1, maxMark - 1, [], true, ""⟩

/-- The wire bytes the claim predicts for scenario S2. -/
def claimedS2 : String :=
  "reset refs/heads/b\nfrom :1\n\nprogress SVN r5 branch b = :0 # from branch master at r3\n\n"

/-- The wire bytes createBranch("b", 5, "master", 3) actually writes after S1. -/
def actualS2 : String :=
  "reset refs/heads/b\nfrom :1\n\nprogress SVN r5 branch b = :1 # from branch master\n\n"

/-- Scenario S5 log file: two committed revisions on master. -/
def s5Log : List String :=
  ["progress SVN r1 branch master = :1\n", "progress SVN r2 branch master = :2\n"]

/-- Scenario S5 marks file: only mark 1 was persisted before the kill. -/
def s5Marks : List String := [":1 0123456789abcdef\n"]

/-- Scenario S5: resume with cutoff 100 on a fresh repository. -/
def s5 : IncResult :=
  setupIncremental 0 (initRepo [("master")]).branches (some s5Log) (some s5Marks) 100

/-- A configuration with commit-interval 2, for the checkpoint cadence
scenario. -/
def cfgI2 : Config := ⟨false, false, 2⟩

/-- Checkpoint scenario: first transaction created and dropped uncommitted. -/
def c8sA : RepoState := (newTransaction cfgI2 ("master") ("/p") 1 (initRepo [("master")])).2

/-- Checkpoint scenario: state after the uncommitted transaction is
destroyed; no transaction has been committed. -/
def c8sB : RepoState := forgetTransaction c8sA

/-- Checkpoint scenario: the second created transaction. -/
def c8pair : Transaction × RepoState := newTransaction cfgI2 ("master") ("/p") 2 c8sB

/-- The bytes commit() emits for the second transaction of the checkpoint
scenario. -/
def c8commitStr : String :=
  "commit refs/heads/master\nmark :1\ncommitter  0 -0000\ndata 1\n\n\n\nprogress SVN r2 branch master = :1\n\n"

/-! ### Theorems -/

/-- C1: scenario S1 (virgin repository, one commit on master) writes to the
importer exactly the blob header, the 5 payload bytes, and then the commit
object: header, message, modifications and closing progress line, in the
fixed protocol order. -/
theorem C1_s1_wire : runS1.map (fun s => s.output) = some expectedS1 := by decide

/-- C9: the backup-reset condition of resetBranch dereferences marks.last()
on an empty vector: deleting the implicitly pre-created master (created = 1,
no marks) at revnum 7 on a fresh repository evaluates out of bounds (the
model returns none where the claim requires a well-defined condition). -/
theorem C9_backup_reset_oob :
    deleteBranch ("master") 7 (initRepo [("master")]) = none := by rfl

/-- C6 counterexample: after scenario S1, createBranch("b", 5, "master", 3)
does not emit the claimed bytes (progress mark :0 and comment suffix
" at r3"). -/
theorem C6_s2_cex :
    ¬ (createBranch ("b") 5 ("master") 3 s1State).map (fun p => p.2.output) =
      some claimedS2 := by decide

/-- C6 amended: scenario S1 leaves master with commits [3] and marks [1];
createBranch("b", 5, "master", 3) resolves mark 1 on the fast path (so the
description gains no " at r3" suffix) and emits the reset followed by
"progress SVN r5 branch b = :1 # from branch master". -/
theorem C6_s2_amended :
    runS1 = some { s1State with output := expectedS1 } ∧
    (createBranch ("b") 5 ("master") 3 s1State).map (fun p => (p.1, p.2.output)) =
      some (EXIT_SUCCESS, actualS2) := by
  exact ⟨by decide, by decide⟩

/-- C4 counterexample: a marks file containing a blank line (a lone newline)
is not skipped: the reader reports corruption and returns 0, while without
the blank line it returns 2. -/
theorem C4_blank_line_cex :
    lastValidMark (some [":1 a\n", "\n", ":2 b\n"]) = 0 ∧
    lastValidMark (some [":1 a\n", ":2 b\n"]) = 2 ∧
    lastValidMark (some [":1 a\n", "\n", ":2 b\n"]) ≠
      lastValidMark (some [":1 a\n", ":2 b\n"]) := by decide

/-- C8 counterexample: with commit-interval 2, create a transaction and drop
it uncommitted, then create a second one: the checkpoint line is emitted
during the second newTransaction, when no transaction has been committed,
and the output of the subsequent commit() contains no checkpoint line. -/
theorem C8_checkpoint_cex :
    c8sA.output = "" ∧
    c8pair.2.output = "checkpoint\n" ∧
    (commitTxn cfgI2 c8pair.1 c8pair.2).map (fun s => s.output) =
      some ("checkpoint\n" ++ c8commitStr) ∧
    ¬ List.IsInfix (String.data ("checkpoint")) c8commitStr.data := by
  refine ⟨by rfl, by decide, by decide, by decide⟩

/-- C2: at every blob-mark allocation the fatal assertion is exactly the
disjointness invariant next_file_mark > last_commit_mark + 1, at every
commit-mark allocation it is the same invariant stated as
mark < next_file_mark - 1, and next_file_mark is reset to
maxMark = 2^20 - 1 exactly when outstandingTransactions drops to zero in
forgetTransaction, and at no other point (newTransaction and commit leave
it unchanged, addFile decrements it). -/
theorem C2_mark_disjointness :
    maxMark = 2 ^ 20 - 1 ∧
    (∀ cfg path mode len body txn rs,
      (addFile cfg path mode len body txn rs).isSome ↔
        rs.next_file_mark > rs.last_commit_mark + 1) ∧
    (∀ cfg path mode len body txn rs,
      (addFile cfg path mode len body txn rs).map (fun p => p.2.next_file_mark) =
        if rs.next_file_mark > rs.last_commit_mark + 1 then
          some (rs.next_file_mark - 1) else none) ∧
    (∀ cfg txn rs,
      (commitTxn cfg txn rs).isSome ↔
        rs.last_commit_mark + 1 < rs.next_file_mark - 1) ∧
    (∀ cfg txn rs,
      (commitTxn cfg txn rs).map (fun s => s.next_file_mark) =
        if rs.last_commit_mark + 1 < rs.next_file_mark - 1 then
          some rs.next_file_mark else none) ∧
    (∀ rs, (forgetTransaction rs).next_file_mark =
        if rs.outstandingTransactions = 1 then maxMark else rs.next_file_mark) ∧
    (∀ rs, (forgetTransaction rs).outstandingTransactions =
        rs.outstandingTransactions - 1) ∧
    (∀ cfg branch sp revnum rs,
      (newTransaction cfg branch sp revnum rs).2.next_file_mark = rs.next_file_mark) := by
  refine ⟨rfl, ?_, ?_, ?_, ?_, ?_, ?_, ?_⟩
  · intro cfg path mode len body txn rs
    by_cases h : rs.next_file_mark > rs.last_commit_mark + 1 <;> simp [addFile, h]
  · intro cfg path mode len body txn rs
    by_cases h : rs.next_file_mark > rs.last_commit_mark + 1 <;>
      simp [addFile, h] <;> split <;> rfl
  · intro cfg txn rs
    by_cases h : rs.last_commit_mark + 1 < rs.next_file_mark - 1 <;> simp [commitTxn, h]
  · intro cfg txn rs
    by_cases h : rs.last_commit_mark + 1 < rs.next_file_mark - 1 <;> simp [commitTxn, h]
  · intro rs
    by_cases h : rs.outstandingTransactions = 1
    · simp [forgetTransaction, h]
    · have h2 : ¬(rs.outstandingTransactions - 1 = 0) := by omega
      simp [forgetTransaction, h, h2]
  · intro rs
    by_cases h2 : rs.outstandingTransactions - 1 = 0 <;> simp [forgetTransaction, h2]
  · intro cfg branch sp revnum rs
    dsimp only [newTransaction, startFastImport]
    split <;> split <;> rfl

/-- Auxiliary cap lemma for the merge loop of commit(): starting from parent
count i, the loop emits exactly the first 16 - i non-parent merge marks in
insertion order and warns exactly once when any are left over. -/
theorem mergeLoop_general (pm : Int) (ms : List Int) :
    ∀ i : Nat, i ≤ 16 →
    mergeLoop pm ms i =
      (strConcat (((keptMerges pm ms).take (16 - i)).map
          (fun m => "merge" ++ (" :" ++ renderInt m) ++ "\n")),
       strConcat (((keptMerges pm ms).take (16 - i)).map
          (fun m => " :" ++ renderInt m)),
       if 16 - i < (keptMerges pm ms).length then 1 else 0) := by
  induction ms with
  | nil => intro i hi; simp [mergeLoop, keptMerges, strConcat]
  | cons m rest ih =>
    intro i hi
    by_cases hm : m = pm
    · simpa [mergeLoop, hm, keptMerges, List.filter_cons] using ih i hi
    · by_cases h16 : i + 1 > 16
      · have hi16 : i = 16 := by omega
        subst hi16
        simp [mergeLoop, hm, h16, keptMerges, List.filter_cons, strConcat]
      · have h1 : 16 - i = (16 - (i + 1)) + 1 := by omega
        simp only [mergeLoop, if_neg hm, if_neg h16]
        rw [ih (i + 1) (by omega)]
        simp only [keptMerges, List.filter_cons, decide_eq_true_eq, if_pos hm, h1,
          List.take_succ_cons, List.map_cons, strConcat, List.length_cons, Prod.mk.injEq]
        refine ⟨trivial, trivial, ?_⟩
        have hiff : (16 - (i + 1) + 1 < (List.filter (fun m => decide (m ≠ pm)) rest).length + 1) ↔
            (16 - (i + 1) < (List.filter (fun m => decide (m ≠ pm)) rest).length) := by omega
        simp [hiff]

/-- C7: with the parent count seeded by the implicit parent, commit() emits
the non-parent merge marks in insertion order, capped at 15 merge lines
when the parent mark is non-zero and 16 when it is zero, issuing exactly
one warning when the cap drops any. -/
theorem C7_parent_cap (pm : Int) (merges : List Int) :
    mergeLoop pm merges (if pm = 0 then 0 else 1) =
      (strConcat (((keptMerges pm merges).take (if pm = 0 then 16 else 15)).map
          (fun m => "merge :" ++ renderInt m ++ "\n")),
       strConcat (((keptMerges pm merges).take (if pm = 0 then 16 else 15)).map
          (fun m => " :" ++ renderInt m)),
       if (if pm = 0 then 16 else 15) < (keptMerges pm merges).length then 1 else 0) := by
  have hfun : (fun m : Int => "merge" ++ (" :" ++ renderInt m) ++ "\n") =
      (fun m : Int => "merge :" ++ renderInt m ++ "\n") := by
    funext m
    have hlit : ("merge" ++ " :" : String) = "merge :" := by decide
    rw [← String.append_assoc ("merge") (" :") (renderInt m), hlit]
  by_cases h : pm = 0
  · simpa [h, hfun] using mergeLoop_general pm merges 0 (by omega)
  · simpa [h, hfun] using mergeLoop_general pm merges 1 (by omega)

theorem lvmLoop_all_good (lines : List String) : ∀ p : Int, 0 ≤ p →
    (∀ l ∈ lines, l ≠ "") →
    (∀ i, i < lines.length → parseMarkLine ((lines.getD i ("")).data) = p + i + 1) →
    lvmLoop lines p = p + lines.length := by
  induction lines with
  | nil => intro p _ _ _; simp [lvmLoop]
  | cons l rest ih =>
    intro p hp hne hgood
    have h0 : parseMarkLine l.data = p + 1 := by simpa using hgood 0 (by simp)
    have hl : l ≠ "" := hne l (by simp)
    rw [lvmLoop, if_neg hl]
    have hm0 : ¬(parseMarkLine l.data = 0) := by rw [h0]; omega
    have hmp : ¬(parseMarkLine l.data = p) := by rw [h0]; omega
    have hml : ¬(parseMarkLine l.data < p) := by rw [h0]; omega
    have hmg : ¬(parseMarkLine l.data > p + 1) := by rw [h0]; omega
    rw [if_neg hm0, if_neg hmp, if_neg hml, if_neg hmg, h0]
    rw [ih (p + 1) (by omega) (fun x hx => hne x (by simp [hx]))
      (fun i hi => by
        have h := hgood (i + 1) (by simpa using Nat.succ_lt_succ hi)
        simp only [List.getD_cons_succ] at h
        exact h.trans (by push_cast; ring))]
    simp only [List.length_cons]
    push_cast
    ring

theorem lvmLoop_gap (lines : List String) : ∀ (p : Int) (k : Nat), 0 ≤ p →
    (∀ l ∈ lines, l ≠ "") →
    (∀ i, i < k → parseMarkLine ((lines.getD i ("")).data) = p + i + 1) →
    k < lines.length →
    parseMarkLine ((lines.getD k ("")).data) > p + k + 1 →
    lvmLoop lines p = p + k := by
  induction lines with
  | nil => intro p k _ _ _ hk _; simp at hk
  | cons l rest ih =>
    intro p k hp hne hgood hk hgap
    have hl : l ≠ "" := hne l (by simp)
    match k with
    | 0 =>
      simp only [List.getD_cons_zero] at hgap
      rw [lvmLoop, if_neg hl]
      have hm0 : ¬(parseMarkLine l.data = 0) := by omega
      have hmp : ¬(parseMarkLine l.data = p) := by omega
      have hml : ¬(parseMarkLine l.data < p) := by omega
      have hmg : parseMarkLine l.data > p + 1 := by simpa using hgap
      rw [if_neg hm0, if_neg hmp, if_neg hml, if_pos hmg]
      simp
    | k' + 1 =>
      have h0 : parseMarkLine l.data = p + 1 := by simpa using hgood 0 (by omega)
      rw [lvmLoop, if_neg hl]
      have hm0 : ¬(parseMarkLine l.data = 0) := by omega
      have hmp : ¬(parseMarkLine l.data = p) := by omega
      have hml : ¬(parseMarkLine l.data < p) := by omega
      have hmg : ¬(parseMarkLine l.data > p + 1) := by omega
      rw [if_neg hm0, if_neg hmp, if_neg hml, if_neg hmg, h0]
      rw [ih (p + 1) k' (by omega) (fun x hx => hne x (by simp [hx]))
        (fun i hi => by
          have h := hgood (i + 1) (by omega)
          simp only [List.getD_cons_succ] at h
          exact h.trans (by push_cast; ring))
        (by simpa using Nat.lt_of_succ_lt_succ hk)
        (by
          have h := hgap
          simp only [List.getD_cons_succ] at h
          exact lt_of_eq_of_lt (by push_cast; ring) h)]
      push_cast
      ring

theorem lvmLoop_bad (lines : List String) : ∀ (p : Int) (k : Nat), 0 ≤ p →
    (∀ l ∈ lines, l ≠ "") →
    (∀ i, i < k → parseMarkLine ((lines.getD i ("")).data) = p + i + 1) →
    k < lines.length →
    parseMarkLine ((lines.getD k ("")).data) ≤ p + k →
    lvmLoop lines p = 0 := by
  induction lines with
  | nil => intro p k _ _ _ hk _; simp at hk
  | cons l rest ih =>
    intro p k hp hne hgood hk hbad
    have hl : l ≠ "" := hne l (by simp)
    match k with
    | 0 =>
      simp only [List.getD_cons_zero] at hbad
      rw [lvmLoop, if_neg hl]
      by_cases hm0 : parseMarkLine l.data = 0
      · rw [if_pos hm0]
      · by_cases hmp : parseMarkLine l.data = p
        · rw [if_neg hm0, if_pos hmp]
        · have hml : parseMarkLine l.data < p := by
            simp only [Nat.cast_zero, add_zero] at hbad
            omega
          rw [if_neg hm0, if_neg hmp, if_pos hml]
    | k' + 1 =>
      have h0 : parseMarkLine l.data = p + 1 := by simpa using hgood 0 (by omega)
      rw [lvmLoop, if_neg hl]
      have hm0 : ¬(parseMarkLine l.data = 0) := by omega
      have hmp : ¬(parseMarkLine l.data = p) := by omega
      have hml : ¬(parseMarkLine l.data < p) := by omega
      have hmg : ¬(parseMarkLine l.data > p + 1) := by omega
      rw [if_neg hm0, if_neg hmp, if_neg hml, if_neg hmg, h0]
      exact ih (p + 1) k' (by omega) (fun x hx => hne x (by simp [hx]))
        (fun i hi => by
          have h := hgood (i + 1) (by omega)
          simp only [List.getD_cons_succ] at h
          exact h.trans (by push_cast; ring))
        (by simpa using Nat.lt_of_succ_lt_succ hk)
        (by
          have h := hbad
          simp only [List.getD_cons_succ] at h
          exact le_of_le_of_eq h (by push_cast; ring))

/-- C4 amended: the marks-file reader accepts exactly the contiguous prefix
of marks 1..k: a clean end returns the file length, the first gap returns
the contiguous prefix length, and a malformed, duplicate or descending line
before the first gap, including a line consisting of just a newline (blank
lines are not skipped, because readLine keeps the terminating newline),
returns 0; a missing file returns 0 silently. -/
theorem C4_marks_reader_amended :
    (∀ lines : List String, (∀ l ∈ lines, l ≠ "") →
      ((∀ i, i < lines.length → parseMarkLine ((lines.getD i ("")).data) = (i : Int) + 1) →
        lastValidMark (some lines) = lines.length) ∧
      (∀ k : Nat, k < lines.length →
        (∀ i, i < k → parseMarkLine ((lines.getD i ("")).data) = (i : Int) + 1) →
        parseMarkLine ((lines.getD k ("")).data) > (k : Int) + 1 →
        lastValidMark (some lines) = k) ∧
      (∀ k : Nat, k < lines.length →
        (∀ i, i < k → parseMarkLine ((lines.getD i ("")).data) = (i : Int) + 1) →
        parseMarkLine ((lines.getD k ("")).data) ≤ (k : Int) →
        lastValidMark (some lines) = 0)) ∧
    lastValidMark none = 0 ∧
    parseMarkLine (String.data ("\n")) = 0 := by
  refine ⟨fun lines hne => ⟨?_, ?_, ?_⟩, rfl, rfl⟩
  · intro hg
    have h := lvmLoop_all_good lines 0 le_rfl hne (fun i hi => by simpa using hg i hi)
    simpa [lastValidMark] using h
  · intro k hk hg hgap
    have h := lvmLoop_gap lines 0 k le_rfl hne (fun i hi => by simpa using hg i hi) hk
      (by simpa using hgap)
    simpa [lastValidMark] using h
  · intro k hk hg hbad
    have h := lvmLoop_bad lines 0 k le_rfl hne (fun i hi => by simpa using hg i hi) hk
      (by simpa using hbad)
    simpa [lastValidMark] using h

/-- Witness for C4 amended: on a marks file with lines :1, :2 and then :5
(a gap), the reader stops at the gap and returns 2. -/
theorem C4_marks_reader_amended_witness :
    lastValidMark (some [":1 a\n", ":2 b\n", ":5 c\n"]) = 2 := by
  have h := (C4_marks_reader_amended.1 ([":1 a\n", ":2 b\n", ":5 c\n"]) (by decide)).2.1 2
    (by decide) (by intro i hi; interval_cases i <;> decide) (by decide)
  simpa using h

/-- In a sorted vector, an element at position m that is ≤ v forces at least
m + 1 elements ≤ v. -/
theorem sorted_le_count (a : List Int) (v : Int) :
    List.Pairwise (· ≤ ·) a → ∀ m : Nat, m < a.length → a.getD m 0 ≤ v →
    m + 1 ≤ a.countP (fun c => decide (c ≤ v)) := by
  induction a with
  | nil => intro _ m hm; simp at hm
  | cons x t ih =>
    intro hs m hm hv
    rw [List.pairwise_cons] at hs
    match m with
    | 0 =>
      simp only [List.getD_cons_zero] at hv
      have hx : decide (x ≤ v) = true := by simpa using hv
      simp [List.countP_cons, hx]
    | m' + 1 =>
      simp only [List.getD_cons_succ] at hv
      have hm' : m' < t.length := by simpa using Nat.lt_of_succ_lt_succ hm
      have h1 := ih hs.2 m' hm' hv
      have hmem : t.getD m' 0 ∈ t := by
        rw [List.getD_eq_getElem t 0 hm']
        exact List.getElem_mem hm'
      have hx : decide (x ≤ v) = true := by
        simpa using le_trans (hs.1 _ hmem) hv
      rw [List.countP_cons, if_pos hx]
      omega

/-- In a sorted vector, an element at position m that is > v caps the count
of elements ≤ v at m. -/
theorem sorted_gt_count (a : List Int) (v : Int) :
    List.Pairwise (· ≤ ·) a → ∀ m : Nat, m < a.length → ¬(a.getD m 0 ≤ v) →
    a.countP (fun c => decide (c ≤ v)) ≤ m := by
  induction a with
  | nil => intro _ m hm; simp at hm
  | cons x t ih =>
    intro hs m hm hv
    rw [List.pairwise_cons] at hs
    match m with
    | 0 =>
      simp only [List.getD_cons_zero] at hv
      have ht : t.countP (fun c => decide (c ≤ v)) = 0 :=
        List.countP_eq_zero.mpr (fun y hy => by
          have := hs.1 y hy
          simp only [decide_eq_true_eq]
          omega)
      have hx : ¬(decide (x ≤ v) = true) := by simpa using hv
      simp [List.countP_cons, hx, ht]
    | m' + 1 =>
      simp only [List.getD_cons_succ] at hv
      have hm' : m' < t.length := by simpa using Nat.lt_of_succ_lt_succ hm
      have h1 := ih hs.2 m' hm' hv
      rw [List.countP_cons]
      split <;> omega

/-- The fueled binary search of qUpperBound computes the count of elements
≤ v whenever that count lies within the bracket and the fuel covers it. -/
theorem ubLoop_eq (a : List Int) (v : Int) (hs : List.Pairwise (· ≤ ·) a) :
    ∀ (fuel lo hi : Nat), hi - lo < fuel → hi ≤ a.length →
    lo ≤ a.countP (fun c => decide (c ≤ v)) →
    a.countP (fun c => decide (c ≤ v)) ≤ hi →
    ubLoop a v fuel lo hi = a.countP (fun c => decide (c ≤ v)) := by
  intro fuel
  induction fuel with
  | zero => intro lo hi hfuel; exact absurd hfuel (Nat.not_lt_zero _)
  | succ fuel ih =>
    intro lo hi hfuel hhi hlo hcnt
    simp only [ubLoop]
    by_cases hlh : lo < hi
    · rw [if_pos hlh]
      have hmhi : (lo + hi) / 2 < hi := by omega
      by_cases hmid : a.getD ((lo + hi) / 2) 0 ≤ v
      · have hge := sorted_le_count a v hs ((lo + hi) / 2) (by omega) hmid
        rw [if_pos hmid]
        exact ih ((lo + hi) / 2 + 1) hi (by omega) hhi (by omega) hcnt
      · have hle := sorted_gt_count a v hs ((lo + hi) / 2) (by omega) hmid
        rw [if_neg hmid]
        exact ih lo ((lo + hi) / 2) (by omega) (by omega) hlo (by omega)
    · rw [if_neg hlh]
      omega

/-- On a sorted vector, qUpperBound returns the number of elements ≤ v,
the position of the first element strictly greater. -/
theorem qUpperBound_eq_countP (a : List Int) (v : Int)
    (hs : List.Pairwise (· ≤ ·) a) :
    qUpperBound a v = a.countP (fun c => decide (c ≤ v)) := by
  exact ubLoop_eq a v hs (a.length + 1) 0 a.length (by omega) le_rfl
    (Nat.zero_le _) (List.countP_le_length _)

/-- C5: markFrom resolves -1 for a never-created or commit-less source
branch, the last mark on the fast path (revnum equals the last commit
revnum), and otherwise 0 when the strictly-greater upper-bound position is
the beginning of the commits vector or else the mark immediately preceding
that position; the description gains " at r<revnum>" (plus " => r<closest>"
when the closest commit differs) exactly when the preceding-mark path is
taken and the description was non-empty on entry. -/
theorem C5_markFrom_resolution (reg : Registry) (branchFrom : String)
    (branchRevNum : Int) (desc : String)
    (hs : List.Pairwise (· ≤ ·) (brAt reg branchFrom).commits) :
    (markFrom reg branchFrom branchRevNum desc).1 =
      (if (brAt reg branchFrom).created = 0 ∨ (brAt reg branchFrom).commits = [] then -1
       else if branchRevNum = (brAt reg branchFrom).commits.getLast?.getD 0 then
         (brAt reg branchFrom).marks.getLast?.getD 0
       else if (brAt reg branchFrom).commits.countP
           (fun c => decide (c ≤ branchRevNum)) = 0 then 0
       else (brAt reg branchFrom).marks.getD
         ((brAt reg branchFrom).commits.countP (fun c => decide (c ≤ branchRevNum)) - 1) 0) ∧
    (markFrom reg branchFrom branchRevNum desc).2.2 =
      (if (brAt reg branchFrom).created ≠ 0 ∧ (brAt reg branchFrom).commits ≠ [] ∧
          branchRevNum ≠ (brAt reg branchFrom).commits.getLast?.getD 0 ∧
          (brAt reg branchFrom).commits.countP (fun c => decide (c ≤ branchRevNum)) ≠ 0 ∧
          desc ≠ "" then
        desc ++ " at r" ++ renderInt branchRevNum ++
          (if (brAt reg branchFrom).commits.getD
              ((brAt reg branchFrom).commits.countP
                (fun c => decide (c ≤ branchRevNum)) - 1) 0 ≠ branchRevNum then
            " => r" ++ renderInt ((brAt reg branchFrom).commits.getD
              ((brAt reg branchFrom).commits.countP
                (fun c => decide (c ≤ branchRevNum)) - 1) 0)
           else "")
       else desc) := by
  have hub : qUpperBound (brAt reg branchFrom).commits branchRevNum =
      (brAt reg branchFrom).commits.countP (fun c => decide (c ≤ branchRevNum)) :=
    qUpperBound_eq_countP _ _ hs
  simp only [markFrom, brAt] at hub ⊢
  by_cases h1 : (lookupBranch (touchBranch reg branchFrom) branchFrom).created = 0
  · simp [h1]
  · by_cases h2 : (lookupBranch (touchBranch reg branchFrom) branchFrom).commits = []
    · simp [h1, h2]
    · by_cases h3 : branchRevNum =
          (lookupBranch (touchBranch reg branchFrom) branchFrom).commits.getLast?.getD 0
      · simp [h1, h2, h3, lastMark]
      · by_cases h4 : (lookupBranch (touchBranch reg branchFrom) branchFrom).commits.countP
            (fun c => decide (c ≤ branchRevNum)) = 0
        · simp [h1, h2, h3, h4, hub]
        · by_cases h5 : desc = ""
          · simp [h1, h2, h3, h4, h5, hub]
          · simp only [markFrom, brAt, hub, if_neg h1, if_neg h2, if_neg h3, if_neg h4,
              if_neg h5, ne_eq, h1, h2, h3, h4, h5, not_false_iff, and_self, if_true]
            simp [h1, h2, h3, h4, h5, hub]
            split <;> simp_all [String.append_assoc]

/-- Witness for C5: branch x has commits [1, 3, 5] with marks [10, 20, 30];
resolving revnum 4 with description d takes the preceding-mark path, yields
mark 20, and appends " at r4 => r3". -/
theorem C5_markFrom_resolution_witness :
    (markFrom [(("x"), ⟨2, [1, 3, 5], [10, 20, 30]⟩)] ("x") 4 ("d")).1 = 20 ∧
    (markFrom [(("x"), ⟨2, [1, 3, 5], [10, 20, 30]⟩)] ("x") 4 ("d")).2.2 = "d at r4 => r3" := by
  have h := C5_markFrom_resolution ([(("x"), ⟨2, [1, 3, 5], [10, 20, 30]⟩)]) ("x") 4 ("d")
    (by decide)
  exact ⟨h.1.trans (by decide), h.2.trans (by decide)⟩

/-- Replaying entries below the cutoff and within the marks-file high-water
does not exit the setupIncremental scan; the first entry whose mark exceeds
the high-water makes the scan warn, rewind the log to the byte position
before that line, back up the whole log, and return that entry's revnum as
the new cutoff. -/
theorem scanLoop_gap (lvm : Int) (orig : List String) :
    ∀ (rem : List String) (idx : Nat) (cutoff lastRev lcm : Int) (reg : Registry)
      (i : Nat) (rev : Int) (brName : String) (mk : Int),
    (∀ j, j < i → okEntry cutoff lvm (rem.getD j (""))) →
    i < rem.length →
    parseProgress (cleanLine (rem.getD i (""))) = some (rev, brName, mk) →
    rev < cutoff → mk > lvm →
    ((scanLoop lvm orig rem idx cutoff lastRev lcm reg).retval,
     (scanLoop lvm orig rem idx cutoff lastRev lcm reg).cutoff,
     (scanLoop lvm orig rem idx cutoff lastRev lcm reg).newLog,
     (scanLoop lvm orig rem idx cutoff lastRev lcm reg).backup,
     (scanLoop lvm orig rem idx cutoff lastRev lcm reg).warnedGap) =
      (rev, rev, some (orig.take (idx + i)), some orig, true) := by
  intro rem
  induction rem with
  | nil =>
    intro idx cutoff lastRev lcm reg i rev brName mk _ hi
    rw [List.length_nil] at hi
    exact absurd hi (Nat.not_lt_zero _)
  | cons line rest ih =>
    intro idx cutoff lastRev lcm reg i
    match i with
    | 0 =>
      intro rev brName mk hok hi hparse hrev hmk
      simp only [List.getD_cons_zero] at hparse
      simp only [scanLoop, hparse]
      rw [if_neg (by omega : ¬ rev ≥ cutoff), if_pos hmk]
      simp
    | i' + 1 =>
      intro rev brName mk hok hi hparse hrev hmk
      have hok0 := hok 0 (Nat.succ_pos _)
      simp only [List.getD_cons_zero] at hok0
      simp only [List.getD_cons_succ] at hparse
      have hstep : ∀ j, j < i' → okEntry cutoff lvm (rest.getD j ("")) := by
        intro j hj
        have h := hok (j + 1) (by omega)
        simpa only [List.getD_cons_succ] using h
      have hi' : i' < rest.length := by simpa using Nat.lt_of_succ_lt_succ hi
      have hgoal := ih (idx + 1) cutoff
      rw [show idx + (i' + 1) = (idx + 1) + i' from by omega]
      cases hok0 with
      | inl hnone =>
        simp only [scanLoop, hnone]
        exact ih (idx + 1) cutoff lastRev lcm reg i' rev brName mk hstep hi' hparse hrev hmk
      | inr hsome =>
        obtain ⟨r, b, m0, hps, hr, hm⟩ := hsome
        simp only [scanLoop, hps]
        rw [if_neg (by omega : ¬ r ≥ cutoff), if_neg (by omega : ¬ m0 > lvm)]
        exact ih (idx + 1) cutoff r (max lcm m0) (applyLogEntry reg r m0 b) i' rev brName mk
          hstep hi' hparse hrev hmk

/-- C3: scenario S5 (resume after kill): with the two-line log and the
one-mark marks file, setup_incremental with cutoff 100 returns 2, sets the
by-reference cutoff to 2, copies the pre-truncation log verbatim to the
backup, truncates the log to its first line, leaves last_commit_mark = 1,
and warns; and in general the first log entry whose mark exceeds the
marks-file high-water makes the engine warn, set the cutoff to that entry's
revnum, back up the log and truncate it just before that entry. -/
theorem C3_resume_rewind :
    (s5.retval = 2 ∧ s5.cutoff = 2 ∧
     s5.newLog = some ["progress SVN r1 branch master = :1\n"] ∧
     s5.backup = some s5Log ∧ s5.last_commit_mark = 1 ∧
     s5.branches = [(("master"), ⟨1, [1], [1]⟩)] ∧ s5.warnedGap = true) ∧
    (∀ (lcm0 : Int) (reg0 : Registry) (log : List String)
       (marks : Option (List String)) (cutoff : Int) (i : Nat) (rev : Int)
       (brName : String) (mk : Int),
      (∀ j, j < i → okEntry cutoff (lastValidMark marks) (log.getD j (""))) →
      i < log.length →
      parseProgress (cleanLine (log.getD i (""))) = some (rev, brName, mk) →
      rev < cutoff → mk > lastValidMark marks →
      (setupIncremental lcm0 reg0 (some log) marks cutoff).retval = rev ∧
      (setupIncremental lcm0 reg0 (some log) marks cutoff).cutoff = rev ∧
      (setupIncremental lcm0 reg0 (some log) marks cutoff).newLog = some (log.take i) ∧
      (setupIncremental lcm0 reg0 (some log) marks cutoff).backup = some log ∧
      (setupIncremental lcm0 reg0 (some log) marks cutoff).warnedGap = true) := by
  constructor
  · refine ⟨by decide, by decide, by decide, by decide, by decide, by decide, by decide⟩
  · intro lcm0 reg0 log marks cutoff i rev brName mk hok hi hparse hrev hmk
    have h := scanLoop_gap (lastValidMark marks) log log 0 cutoff 0 lcm0 reg0 i rev
      brName mk hok hi hparse hrev hmk
    have h1 := congrArg (fun t => t.1) h
    have h2 := congrArg (fun t => t.2.1) h
    have h3 := congrArg (fun t => t.2.2.1) h
    have h4 := congrArg (fun t => t.2.2.2.1) h
    have h5 := congrArg (fun t => t.2.2.2.2) h
    simp only at h1 h2 h3 h4 h5
    exact ⟨h1, h2, by simpa using h3, h4, h5⟩

/-- Witness for the general rewind statement of C3, at the scenario S5
input: entry 1 (revnum 2, mark 2) exceeds the marks-file high-water 1. -/
theorem C3_resume_rewind_witness :
    (setupIncremental 0 (initRepo [("master")]).branches (some s5Log) (some s5Marks) 100).retval = 2 ∧
    (setupIncremental 0 (initRepo [("master")]).branches (some s5Log) (some s5Marks) 100).cutoff = 2 ∧
    (setupIncremental 0 (initRepo [("master")]).branches (some s5Log) (some s5Marks) 100).newLog =
      some (s5Log.take 1) ∧
    (setupIncremental 0 (initRepo [("master")]).branches (some s5Log) (some s5Marks) 100).backup =
      some s5Log := by
  have h := C3_resume_rewind.2 0 (initRepo [("master")]).branches s5Log (some s5Marks) 100 1 2
    ("master") 2
    (by
      intro j hj
      interval_cases j
      exact Or.inr ⟨1, ("master"), 1, by decide, by decide, by decide⟩)
    (by decide) (by decide) (by decide) (by decide)
  exact ⟨h.1, h.2.1, h.2.2.1, h.2.2.2.1⟩

/-- C8 amended: the checkpoint line is written during newTransaction, not
during commit(): commitCount counts every created transaction (committed or
not), and when it reaches a multiple of commit-interval the checkpoint is
appended right there, hence before all of that transaction's blobs and its
commit object in the stream. -/
theorem C8_checkpoint_amended (cfg : Config) (branch sp : String) (revnum : Int)
    (rs : RepoState) (hI : 0 < cfg.commitInterval) :
    (newTransaction cfg branch sp revnum rs).2.output =
      rs.output ++ (if rs.processHasStarted then "" else reloadBranchesOut rs.branches) ++
        (if (rs.commitCount + 1) % cfg.commitInterval = 0 then "checkpoint\n" else "") ∧
    (newTransaction cfg branch sp revnum rs).2.commitCount = rs.commitCount + 1 ∧
    (newTransaction cfg branch sp revnum rs).2.outstandingTransactions =
      rs.outstandingTransactions + 1 := by
  by_cases h1 : rs.processHasStarted <;>
    by_cases h2 : cfg.commitInterval ∣ (rs.commitCount + 1) <;>
      simp [newTransaction, startFastImport, h1, h2, String.append_assoc]

/-- Witness for C8 amended: the second transaction of the interval-2
scenario gets the checkpoint appended during newTransaction. -/
theorem C8_checkpoint_amended_witness :
    (newTransaction cfgI2 ("master") ("/p") 2 c8sB).2.output =
      c8sB.output ++ (if c8sB.processHasStarted then "" else reloadBranchesOut c8sB.branches) ++
        (if (c8sB.commitCount + 1) % cfgI2.commitInterval = 0 then "checkpoint\n" else "") ∧
    (newTransaction cfgI2 ("master") ("/p") 2 c8sB).2.commitCount = c8sB.commitCount + 1 ∧
    (newTransaction cfgI2 ("master") ("/p") 2 c8sB).2.outstandingTransactions =
      c8sB.outstandingTransactions + 1 :=
  C8_checkpoint_amended cfgI2 ("master") ("/p") 2 c8sB (by decide)

/-- A key missing from the registry looks up to the appended default entry. -/
theorem lookup_append_self (reg : Registry) (k : String) (b : Branch) :
    containsBranch reg k = false → lookupBranch (reg ++ [(k, b)]) k = b := by
  induction reg with
  | nil => intro _; simp [lookupBranch]
  | cons p reg' ih =>
    intro h
    simp only [containsBranch, List.any_cons, Bool.or_eq_false_iff,
      decide_eq_false_iff_not] at h
    have h2 : containsBranch reg' k = false := h.2
    simp only [lookupBranch, List.cons_append, List.find?]
    simp [h.1]
    simpa [lookupBranch] using ih h2

/-- C10: looking up an unknown branch through markFrom returns -1 but, as a
side effect of QHash operator[], inserts a default entry (created 0, empty
vectors) into the registry; noteCopyFromBranch from an unknown branch
(other than the transaction's own) drops the merge yet keeps the inserted
entry, and createBranch from an unknown source fails with EXIT_FAILURE yet
keeps the inserted entry, leaving counters and tags unchanged. -/
theorem C10_registry_insertion (rs : RepoState) (name : String) (revFrom : Int)
    (desc : String) (txn : Transaction) (branch : String) (revnum branchRevNum : Int)
    (hname : containsBranch rs.branches name = false) :
    (markFrom rs.branches name revFrom desc).1 = -1 ∧
    (markFrom rs.branches name revFrom desc).2.1 =
      rs.branches ++ [(name, defaultBranch)] ∧
    (markFrom rs.branches name revFrom desc).2.2 = desc ∧
    (txn.branch ≠ name →
      noteCopyFromBranch name revFrom txn rs =
        (txn, { rs with branches := rs.branches ++ [(name, defaultBranch)] })) ∧
    ((createBranch branch revnum name branchRevNum rs).map (fun p =>
        (p.1, p.2.branches, p.2.commitCount, p.2.outstandingTransactions,
         p.2.last_commit_mark, p.2.next_file_mark, p.2.annotatedTags)) =
      some (EXIT_FAILURE, rs.branches ++ [(name, defaultBranch)], rs.commitCount,
        rs.outstandingTransactions, rs.last_commit_mark, rs.next_file_mark,
        rs.annotatedTags)) := by
  have htouch : touchBranch rs.branches name = rs.branches ++ [(name, defaultBranch)] := by
    simp [touchBranch, hname]
  have hlook : lookupBranch (rs.branches ++ [(name, defaultBranch)]) name = defaultBranch :=
    lookup_append_self _ _ _ hname
  have hdc : defaultBranch.created = 0 := rfl
  refine ⟨?_, ?_, ?_, ?_, ?_⟩
  · simp [markFrom, htouch, hlook, hdc]
  · simp [markFrom, htouch, hlook, hdc]
  · simp [markFrom, htouch, hlook, hdc]
  · intro hbr
    simp [noteCopyFromBranch, hbr, markFrom, htouch, hlook, hdc]
  · by_cases hst : rs.processHasStarted <;>
      simp [createBranch, startFastImport, hst, markFrom, htouch, hlook, hdc,
        EXIT_FAILURE]

/-- Witness for C10: on a fresh repository, resolving the unknown branch x
returns -1 and appends the default entry; noteCopyFromBranch from x drops
the merge but inserts the entry. -/
theorem C10_registry_insertion_witness :
    (markFrom (initRepo [("master")]).branches ("x") 4 ("d")).1 = -1 ∧
    (markFrom (initRepo [("master")]).branches ("x") 4 ("d")).2.1 =
      (initRepo [("master")]).branches ++ [(("x"), defaultBranch)] ∧
    noteCopyFromBranch ("x") 4 ⟨("master"), ("/p"), "", "", 0, 5, [], [], ""⟩
        (initRepo [("master")]) =
      (⟨("master"), ("/p"), "", "", 0, 5, [], [], ""⟩,
       { initRepo [("master")] with
          branches := (initRepo [("master")]).branches ++ [(("x"), defaultBranch)] }) := by
  have h := C10_registry_insertion (initRepo [("master")]) ("x") 4 ("d")
    ⟨("master"), ("/p"), "", "", 0, 5, [], [], ""⟩ ("b") 7 3 (by decide)
  exact ⟨h.1, h.2.1, h.2.2.2.1 (by decide)⟩

end Svn2Git
